import Mathlib

/-
Shallow embedding of the CHIP-8 interpreter from src/src/main.rs.

Conventions of the embedding:
* Machine integers (u8, u16, usize) are modelled as Nat.  Where the Rust
  code performs arithmetic that wraps (release-mode overflow semantics of
  the u8 and u16 types, and the explicit wrapping of overflowing_add and
  overflowing_sub), the model reduces modulo 256 respectively 65536 at the
  point of the write.  Reads of stored bytes rely on the state invariant
  that every stored value is below 256, which every write maintains.
* Bit operations of the source are rendered as division and modulus:
  a >> k is a / 2^k, a & 0xF000 followed by >> 12 is a / 4096, the low
  byte a & 0xFF is a % 256, and so on.  The byte assembly
  (b0 << 8) | b1 of read_opcode is b0 * 256 + b1 since the two u8
  operands are below 256.
* memory (Vec<u8> of length 4096), registers ([u8; 16]), the screen
  ([[bool; 64]; 32]) and the keypad ([KeyState; 16]) are modelled as total
  functions from Nat; only indices inside the real ranges are ever used by
  the code.  The call stack (Vec<u16>, pushed and popped at the back) is a
  Lean list with the top of the stack at the head.
* The fatal conditions of the source, which are panics or unwraps in the
  Rust code (the machine-language-subroutine arm, the wildcard
  wrong-opcode arm, and pop of an empty stack), are an explicit error
  value, so exe returns Except Err Interpreter.
* The random byte drawn by rand::random in the CXNN arm is supplied as an
  oracle argument to exe; the driver passes a stream of such bytes.
* The host-side translation of winit key events into logical keypad codes
  (fn get_key) is outside the core: update receives the already-translated
  list of (logical key, pressed) pairs, as the interface contract states.
-/

namespace Chip8

def WIDTH : Nat := 64
def HEIGHT : Nat := 32
def OFFSET : Nat := 0x200
def IPF : Nat := 1000
def AMIGA_BEHAVIOUR : Bool := false
def MODERN_STR_LD_BEHAVIOUR : Bool := false
def MODERN_SHIFT_BEHAVIOUR : Bool := false
def VF_RESET : Bool := true

structure KeyState where
  pressed_frames_ago : Nat
  released_frames_ago : Nat
deriving DecidableEq

def KeyState.new : KeyState := ⟨60, 60⟩

def KeyState.press (k : KeyState) : KeyState := { k with pressed_frames_ago := 0 }

def KeyState.release (k : KeyState) : KeyState := { k with released_frames_ago := 0 }

/-- Model of KeyState::update_pressed: increment (a u8 add) then clamp with min 60. -/
def KeyState.update_pressed (k : KeyState) : KeyState :=
  { k with pressed_frames_ago := min ((k.pressed_frames_ago + 1) % 256) 60 }

def KeyState.update_released (k : KeyState) : KeyState :=
  { k with released_frames_ago := min ((k.released_frames_ago + 1) % 256) 60 }

def KeyState.is_pressed (k : KeyState) : Bool := k.pressed_frames_ago ≤ 3

def KeyState.is_released (k : KeyState) : Bool := k.released_frames_ago ≤ 3

/-- Fatal conditions of the interpreter: the panic in the 0NNN arm, the
pop-unwrap of Return on an empty stack, the wrong-opcode panic of the
wildcard arm, and the out-of-bounds panic of the Vec indexing
memory[index + i] in the sprite rows of the DXYN arm. -/
inductive Err where
  | machineSubroutine
  | stackUnderflow
  | unknownOpcode (op : Nat)
  | addressOutOfRange
deriving DecidableEq

abbrev Screen := Nat → Nat → Bool

/-- Update of a function model of an array at one index. -/
def setAt {α : Type} (f : Nat → α) (i : Nat) (v : α) : Nat → α :=
  fun j => if j = i then v else f j

structure Interpreter where
  memory : Nat → Nat
  screen : Screen
  program_counter : Nat
  index : Nat
  stack : List Nat
  delay_timer : Nat
  sound_timer : Nat
  registers : Nat → Nat
  halt : Bool
  keys : Nat → KeyState
  last_pressed_frames_ago : Option (Nat × Nat)

/-- Model of Interpreter::read_opcode: the two bytes at the program counter
assembled big-endian. -/
def read_opcode (s : Interpreter) : Nat :=
  s.memory s.program_counter % 256 * 256 + s.memory (s.program_counter + 1) % 256

/-- Extraction of sprite bit i of a row byte: (byte >> (7 - i)) % 2 == 1. -/
def bitOf (byte i : Nat) : Bool := byte / 2 ^ (7 - i) % 2 == 1

/-- Inner loop of the DXYN arm: one sprite row.  The pair carries the screen
and the VF accumulator; j is the enumerate index inside the clipped slice
x0..min(x0+8,WIDTH), and the second Nat argument counts the remaining
iterations.  The collision test reads the pixel before it is XORed, exactly
as in the source. -/
def drawBitsGo (byte row x0 : Nat) : Nat → Nat → Screen × Nat → Screen × Nat
  | _, 0, sv => sv
  | j, rem + 1, sv =>
      drawBitsGo byte row x0 (j + 1) rem
        (fun r c => if r = row ∧ c = x0 + j then xor (sv.1 r c) (bitOf byte j) else sv.1 r c,
         if sv.1 row (x0 + j) && bitOf byte j then 1 else sv.2)

/-- Outer loop of the DXYN arm: the clipped rows, row i coming from the byte
at memory[index + i] and drawn at screen row y0 + i. -/
def drawRowsGo (mem : Nat → Nat) (index x0 y0 : Nat) : Nat → Nat → Screen × Nat → Screen × Nat
  | _, 0, sv => sv
  | i, rem + 1, sv =>
      drawRowsGo mem index x0 y0 (i + 1) rem
        (drawBitsGo (mem (index + i)) (y0 + i) x0 0 (min (x0 + 8) WIDTH - x0) sv)

/-- Drawing of the DXYN arm, its in-bounds behaviour, after the coordinate
registers are reduced: VF is cleared (the accumulator starts at 0), the row
count is clipped at the bottom edge, and the clipped rows are drawn. -/
def drawSprite (mem : Nat → Nat) (index x0 y0 n : Nat) (screen : Screen) : Screen × Nat :=
  drawRowsGo mem index x0 y0 0 (min (y0 + n) HEIGHT - y0) (screen, 0)

/-- Outer loop of the DXYN arm with the bounds check of the Vec indexing:
the read memory[index + i] panics when index + i is outside the 4096-byte
store, modelled as a none result that aborts the instruction; within
bounds, row i draws as in drawRowsGo. -/
def drawRowsGoChecked (mem : Nat → Nat) (index x0 y0 : Nat) :
    Nat → Nat → Screen × Nat → Option (Screen × Nat)
  | _, 0, sv => some sv
  | i, rem + 1, sv =>
      if index + i < 4096 then
        drawRowsGoChecked mem index x0 y0 (i + 1) rem
          (drawBitsGo (mem (index + i)) (y0 + i) x0 0 (min (x0 + 8) WIDTH - x0) sv)
      else
        none

/-- Body of the DXYN arm with the memory bounds check of the row reads. -/
def drawSpriteChecked (mem : Nat → Nat) (index x0 y0 n : Nat) (screen : Screen) :
    Option (Screen × Nat) :=
  drawRowsGoChecked mem index x0 y0 0 (min (y0 + n) HEIGHT - y0) (screen, 0)

/-- FX55 arm, historical variant: memory[index] := registers[i] and
index := index + 1 (a u16 increment), repeated for i in 0..=x. -/
def storeRegsGo (regs : Nat → Nat) : Nat → Nat → (Nat → Nat) × Nat → (Nat → Nat) × Nat
  | _, 0, mi => mi
  | i, rem + 1, mi =>
      storeRegsGo regs (i + 1) rem (setAt mi.1 mi.2 (regs i), (mi.2 + 1) % 65536)

/-- FX55 arm, modern variant: memory[index + i] := registers[i] for i in
0..=x, with index left unchanged. -/
def storeRegsModernGo (regs : Nat → Nat) (index : Nat) : Nat → Nat → (Nat → Nat) → Nat → Nat
  | _, 0, mem => mem
  | i, rem + 1, mem =>
      storeRegsModernGo regs index (i + 1) rem (setAt mem (index + i) (regs i))

/-- FX65 arm, historical variant: registers[i] := memory[index] and
index := index + 1, repeated for i in 0..=x. -/
def loadRegsGo (mem : Nat → Nat) : Nat → Nat → (Nat → Nat) × Nat → (Nat → Nat) × Nat
  | _, 0, ri => ri
  | i, rem + 1, ri =>
      loadRegsGo mem (i + 1) rem (setAt ri.1 i (mem ri.2), (ri.2 + 1) % 65536)

/-- FX65 arm, modern variant: registers[i] := memory[index + i]. -/
def loadRegsModernGo (mem : Nat → Nat) (index : Nat) : Nat → Nat → (Nat → Nat) → Nat → Nat
  | _, 0, regs => regs
  | i, rem + 1, regs =>
      loadRegsModernGo mem index (i + 1) rem (setAt regs i (mem (index + i)))

/-- Model of Interpreter::is_key_pressed. -/
def isKeyPressed (s : Interpreter) (key : Nat) : Bool := (s.keys key).is_pressed

/-- Arms of the Rust match with leading nibble 0: clear screen, return
(with the unwrap of the empty-stack pop a fatal error), and the
machine-language-subroutine panic. -/
def exeArm0 (s : Interpreter) (x y n : Nat) : Except Err Interpreter :=
  if x = 0x0 ∧ y = 0xE ∧ n = 0x0 then
    .ok { s with screen := fun _ _ => false }
  else if x = 0x0 ∧ y = 0xE ∧ n = 0xE then
    match s.stack with
    | [] => .error .stackUnderflow
    | a :: rest => .ok { s with program_counter := a, stack := rest }
  else
    .error .machineSubroutine

/-- Arms of the Rust match with leading nibble 8: the register-to-register
moves, logic and arithmetic, keyed on the low nibble; any other low nibble
falls through to the wrong-opcode panic. -/
def exeArm8 (s : Interpreter) (opcode x y n : Nat) : Except Err Interpreter :=
  if n = 0x0 then
    .ok { s with registers := setAt s.registers x (s.registers y) }
  else if n = 0x1 then
    .ok { s with registers := if VF_RESET then setAt (setAt s.registers x (s.registers x ||| s.registers y)) 0xF 0 else setAt s.registers x (s.registers x ||| s.registers y) }
  else if n = 0x2 then
    .ok { s with registers := if VF_RESET then setAt (setAt s.registers x (s.registers x &&& s.registers y)) 0xF 0 else setAt s.registers x (s.registers x &&& s.registers y) }
  else if n = 0x3 then
    .ok { s with registers := if VF_RESET then setAt (setAt s.registers x (s.registers x ^^^ s.registers y)) 0xF 0 else setAt s.registers x (s.registers x ^^^ s.registers y) }
  else if n = 0x4 then
    .ok { s with registers := setAt (setAt s.registers x ((s.registers x + s.registers y) % 256)) 0xF (if 256 ≤ s.registers x + s.registers y then 1 else 0) }
  else if n = 0x5 then
    .ok { s with registers := setAt (setAt s.registers x ((s.registers x + 256 - s.registers y) % 256)) 0xF (if s.registers x < s.registers y then 0 else 1) }
  else if n = 0x6 then
    if MODERN_SHIFT_BEHAVIOUR then
      .ok { s with registers := setAt (setAt s.registers x (s.registers x / 2)) 0xF (s.registers x % 2) }
    else
      .ok { s with registers := setAt (setAt s.registers x (s.registers y / 2)) 0xF (s.registers y % 2) }
  else if n = 0x7 then
    .ok { s with registers := setAt (setAt s.registers x ((s.registers y + 256 - s.registers x) % 256)) 0xF (if s.registers y < s.registers x then 0 else 1) }
  else if n = 0xE then
    if MODERN_SHIFT_BEHAVIOUR then
      .ok { s with registers := setAt (setAt s.registers x (s.registers x * 2 % 256)) 0xF (s.registers x / 128 % 2) }
    else
      .ok { s with registers := setAt (setAt s.registers x (s.registers y * 2 % 256)) 0xF (s.registers y / 128 % 2) }
  else
    .error (.unknownOpcode opcode)

/-- Arms of the Rust match with leading nibble E: the two key-skip forms;
any other suffix falls through to the wrong-opcode panic. -/
def exeArmE (s : Interpreter) (opcode x y n : Nat) : Except Err Interpreter :=
  if y = 0x9 ∧ n = 0xE then
    .ok (if isKeyPressed s (s.registers x) then { s with program_counter := s.program_counter + 2 } else s)
  else if y = 0xA ∧ n = 0x1 then
    .ok (if ¬ isKeyPressed s (s.registers x) then { s with program_counter := s.program_counter + 2 } else s)
  else
    .error (.unknownOpcode opcode)

/-- Arms of the Rust match with leading nibble F, keyed on the (y, n)
suffix; any other suffix falls through to the wrong-opcode panic. -/
def exeArmF (s : Interpreter) (opcode x y n : Nat) : Except Err Interpreter :=
  if y = 0x0 ∧ n = 0x7 then
    .ok { s with registers := setAt s.registers x s.delay_timer }
  else if y = 0x0 ∧ n = 0xA then
    match s.last_pressed_frames_ago with
    | some (key, frames_ago) =>
        if frames_ago = 0 then
          .ok { s with registers := setAt s.registers x key }
        else
          .ok { s with program_counter := s.program_counter - 2 }
    | none =>
        .ok { s with program_counter := s.program_counter - 2 }
  else if y = 0x1 ∧ n = 0x5 then
    .ok { s with delay_timer := s.registers x }
  else if y = 0x1 ∧ n = 0x8 then
    .ok { s with sound_timer := s.registers x }
  else if y = 0x1 ∧ n = 0xE then
    if AMIGA_BEHAVIOUR then
      .ok { s with index := (s.index + s.registers x) % 65536, registers := setAt s.registers 0xF (if s.index ≤ 0xFFF ∧ 0xFFF < (s.index + s.registers x) % 65536 then 1 else 0) }
    else
      .ok { s with index := (s.index + s.registers x) % 65536 }
  else if y = 0x2 ∧ n = 0x9 then
    .ok { s with index := s.registers x * 5 }
  else if y = 0x3 ∧ n = 0x3 then
    .ok { s with memory := setAt (setAt (setAt s.memory s.index (s.registers x / 100)) (s.index + 1) (s.registers x / 10 % 10)) (s.index + 2) (s.registers x % 10) }
  else if y = 0x5 ∧ n = 0x5 then
    if MODERN_STR_LD_BEHAVIOUR then
      .ok { s with memory := storeRegsModernGo s.registers s.index 0 (x + 1) s.memory }
    else
      .ok { s with memory := (storeRegsGo s.registers 0 (x + 1) (s.memory, s.index)).1, index := (storeRegsGo s.registers 0 (x + 1) (s.memory, s.index)).2 }
  else if y = 0x6 ∧ n = 0x5 then
    if MODERN_STR_LD_BEHAVIOUR then
      .ok { s with registers := loadRegsModernGo s.memory s.index 0 (x + 1) s.registers }
    else
      .ok { s with registers := (loadRegsGo s.memory 0 (x + 1) (s.registers, s.index)).1, index := (loadRegsGo s.memory 0 (x + 1) (s.registers, s.index)).2 }
  else
    .error (.unknownOpcode opcode)

/-- Dispatch of Interpreter::exe on the decoded opcode fields.  The Rust
match on the nibble tuple (c, x, y, n) is rendered as an ordered cascade on
the leading nibble, the grouped arms living in the exeArm helpers; s is the
state with the program counter already advanced past the fetched word, and
rand is the oracle for the random byte of the CXNN arm. -/
def exeDecoded (rand : Nat) (s : Interpreter) (opcode c x y n nn nnn : Nat) :
    Except Err Interpreter :=
  if c = 0x0 then
    exeArm0 s x y n
  else if c = 0x1 then
    .ok { s with program_counter := nnn }
  else if c = 0x2 then
    .ok { s with stack := s.program_counter % 65536 :: s.stack, program_counter := nnn }
  else if c = 0x3 then
    .ok (if s.registers x = nn then { s with program_counter := s.program_counter + 2 } else s)
  else if c = 0x4 then
    .ok (if s.registers x ≠ nn then { s with program_counter := s.program_counter + 2 } else s)
  else if c = 0x5 then
    .ok (if s.registers x = s.registers y then { s with program_counter := s.program_counter + 2 } else s)
  else if c = 0x6 then
    .ok { s with registers := setAt s.registers x nn }
  else if c = 0x7 then
    .ok { s with registers := setAt s.registers x ((s.registers x + nn) % 256) }
  else if c = 0x8 then
    exeArm8 s opcode x y n
  else if c = 0x9 then
    .ok (if s.registers x ≠ s.registers y then { s with program_counter := s.program_counter + 2 } else s)
  else if c = 0xA then
    .ok { s with index := nnn }
  else if c = 0xB then
    .ok { s with program_counter := nnn + s.registers 0 }
  else if c = 0xC then
    .ok { s with registers := setAt s.registers x (rand % 256 &&& nn) }
  else if c = 0xD then
    match drawSpriteChecked s.memory s.index (setAt s.registers 0xF 0 x % WIDTH) (setAt s.registers 0xF 0 y % HEIGHT) n s.screen with
    | some res => .ok { s with screen := res.1, registers := setAt (setAt s.registers 0xF 0) 0xF res.2 }
    | none => .error .addressOutOfRange
  else if c = 0xE then
    exeArmE s opcode x y n
  else if c = 0xF then
    exeArmF s opcode x y n
  else
    .error (.unknownOpcode opcode)

/-- Model of Interpreter::exe: return early on halt, fetch the word at the
program counter, advance the program counter by 2, decode the nibbles and
derived fields, and dispatch. -/
def exe (rand : Nat) (s : Interpreter) : Except Err Interpreter :=
  if s.halt then .ok s else
  exeDecoded rand { s with program_counter := s.program_counter + 2 }
    (read_opcode s) (read_opcode s / 4096) (read_opcode s / 256 % 16)
    (read_opcode s / 16 % 16) (read_opcode s % 16) (read_opcode s % 256) (read_opcode s % 4096)

/-- Iterated exe, as in the instruction loop of update; the oracle rands
supplies the random byte of each step. -/
def runExe (rands : Nat → Nat) : Nat → Interpreter → Except Err Interpreter
  | 0, s => .ok s
  | k + 1, s =>
      match exe (rands k) s with
      | .ok t => runExe rands k t
      | .error e => .error e

/-- First phase of Interpreter::update: every key ages by one frame. -/
def ageKeys (s : Interpreter) : Interpreter :=
  { s with keys := fun i => ((s.keys i).update_pressed).update_released }

/-- Event loop of Interpreter::update: each (key, pressed) event updates the
per-key state, and the last pressed key of the batch is remembered. -/
def applyEventsGo : List (Nat × Bool) → Interpreter × Option Nat → Interpreter × Option Nat
  | [], si => si
  | (k, pressed) :: rest, si =>
      if pressed then
        applyEventsGo rest ({ si.1 with keys := setAt si.1.keys k ((si.1.keys k).press) }, some k)
      else
        applyEventsGo rest ({ si.1 with keys := setAt si.1.keys k ((si.1.keys k).release) }, si.2)

/-- Second phase of Interpreter::update: apply the key events; if any key
was pressed this tick, the PendingKeyWait record becomes (key, 0). -/
def applyKeyEvents (events : List (Nat × Bool)) (s : Interpreter) : Interpreter :=
  match applyEventsGo events (s, none) with
  | (t, some k) => { t with last_pressed_frames_ago := some (k, 0) }
  | (t, none) => t

/-- Final phase of Interpreter::update: both timers step once, computed in
u8 arithmetic as (t + 59) % 60, and the pending key record ages by one
frame, clamped at 60. -/
def tickAfter (t : Interpreter) : Interpreter :=
  { t with
    delay_timer := (t.delay_timer + 59) % 256 % 60,
    sound_timer := (t.sound_timer + 59) % 256 % 60,
    last_pressed_frames_ago :=
      match t.last_pressed_frames_ago with
      | some (k, a) => some (k, min ((a + 1) % 256) 60)
      | none => none }

/-- Model of Interpreter::update: age the keys, apply the event batch, run
IPF instructions, then decay the timers once and age the pending record. -/
def update (events : List (Nat × Bool)) (rands : Nat → Nat) (s : Interpreter) :
    Except Err Interpreter :=
  match runExe rands IPF (applyKeyEvents events (ageKeys s)) with
  | .ok t => .ok (tickAfter t)
  | .error e => .error e

/-- A sequence of ticks, each with its event batch and random oracle. -/
def runTicks : List (List (Nat × Bool) × (Nat → Nat)) → Interpreter → Except Err Interpreter
  | [], s => .ok s
  | (ev, rnd) :: rest, s =>
      match update ev rnd s with
      | .ok t => runTicks rest t
      | .error e => .error e

/-- Model of Interpreter::new (the memory is all zero before a program is
loaded). -/
def initState : Interpreter where
  memory := fun _ => 0
  screen := fun _ _ => false
  program_counter := OFFSET
  index := 0
  stack := []
  delay_timer := 0
  sound_timer := 0
  registers := fun _ => 0
  halt := false
  keys := fun _ => KeyState.new
  last_pressed_frames_ago := none


/-- Pixel-level characterization of the inner sprite-row loop: the pixels of
row number row in the column window x0+j .. x0+j+rem are XORed with the
sprite bits, everything else is untouched. -/
theorem drawBitsGo_fst (byte row x0 : Nat) :
    ∀ (rem j : Nat) (S : Screen) (V : Nat) (r c : Nat),
    (drawBitsGo byte row x0 j rem (S, V)).1 r c =
      if r = row ∧ x0 + j ≤ c ∧ c < x0 + j + rem
      then xor (S r c) (bitOf byte (c - x0)) else S r c := by
  intro rem
  induction rem with
  | zero =>
    intro j S V r c
    simp only [drawBitsGo]
    rw [if_neg (by omega)]
  | succ m ih =>
    intro j S V r c
    simp only [drawBitsGo]
    rw [ih]
    by_cases h1 : r = row ∧ c = x0 + j
    · rw [if_neg (by omega), if_pos h1, if_pos (by omega)]
      rw [show c - x0 = j by omega]
    · rw [if_neg h1]
      by_cases h2 : r = row ∧ x0 + (j + 1) ≤ c ∧ c < x0 + (j + 1) + m
      · rw [if_pos h2, if_pos (by omega)]
      · rw [if_neg h2, if_neg (by omega)]

/-- Collision-flag characterization of the inner sprite-row loop: the
accumulator becomes 1 exactly when some still-set pixel of the window meets
an incoming set bit; otherwise it is left alone. -/
theorem drawBitsGo_snd (byte row x0 : Nat) :
    ∀ (rem j : Nat) (S : Screen) (V : Nat),
    (drawBitsGo byte row x0 j rem (S, V)).2 =
      if ∃ k, k < rem ∧ (S row (x0 + j + k) && bitOf byte (j + k)) = true
      then 1 else V := by
  intro rem
  induction rem with
  | zero =>
    intro j S V
    simp only [drawBitsGo]
    rw [if_neg]
    rintro ⟨k, hk, -⟩
    omega
  | succ m ih =>
    intro j S V
    simp only [drawBitsGo]
    rw [ih]
    have hiff : (∃ k, k < m ∧
        ((if row = row ∧ x0 + (j + 1) + k = x0 + j
          then xor (S row (x0 + (j + 1) + k)) (bitOf byte j)
          else S row (x0 + (j + 1) + k)) && bitOf byte (j + 1 + k)) = true) ↔
        (∃ k, k < m ∧ (S row (x0 + (j + 1) + k) && bitOf byte (j + 1 + k)) = true) := by
      refine exists_congr fun k => and_congr_right fun hk => ?_
      rw [if_neg (by omega)]
    rw [if_congr hiff rfl rfl]
    by_cases h0 : (S row (x0 + j) && bitOf byte j) = true
    · rw [if_pos h0, ite_self,
        if_pos (show ∃ k, k < m + 1 ∧ (S row (x0 + j + k) && bitOf byte (j + k)) = true
          from ⟨0, by omega, by simpa using h0⟩)]
    · rw [if_neg h0]
      by_cases h2 : ∃ k, k < m ∧ (S row (x0 + (j + 1) + k) && bitOf byte (j + 1 + k)) = true
      · obtain ⟨k, hk, hkk⟩ := h2
        rw [if_pos ⟨k, hk, hkk⟩, if_pos]
        refine ⟨k + 1, by omega, ?_⟩
        rw [show x0 + j + (k + 1) = x0 + (j + 1) + k by omega,
            show j + (k + 1) = j + 1 + k by omega]
        exact hkk
      · rw [if_neg h2, if_neg]
        rintro ⟨k, hk, hkk⟩
        rcases Nat.eq_zero_or_pos k with hz | hp
        · subst hz
          simp only [Nat.add_zero] at hkk
          exact h0 hkk
        · refine h2 ⟨k - 1, by omega, ?_⟩
          rw [show x0 + (j + 1) + (k - 1) = x0 + j + k by omega,
              show j + 1 + (k - 1) = j + k by omega]
          exact hkk


theorem drawRowsGo_fst (mem : Nat → Nat) (index x0 y0 : Nat) :
    ∀ (rem i : Nat) (S : Screen) (V : Nat) (r c : Nat),
    (drawRowsGo mem index x0 y0 i rem (S, V)).1 r c =
      if y0 + i ≤ r ∧ r < y0 + i + rem ∧ x0 ≤ c ∧ c < x0 + (min (x0 + 8) WIDTH - x0)
      then xor (S r c) (bitOf (mem (index + (r - y0))) (c - x0)) else S r c := by
  intro rem
  induction rem with
  | zero =>
    intro i S V r c
    simp only [drawRowsGo]
    rw [if_neg (by omega)]
  | succ m ih =>
    intro i S V r c
    simp only [drawRowsGo]
    rw [show drawBitsGo (mem (index + i)) (y0 + i) x0 0 (min (x0 + 8) WIDTH - x0) (S, V)
        = ((drawBitsGo (mem (index + i)) (y0 + i) x0 0 (min (x0 + 8) WIDTH - x0) (S, V)).1,
           (drawBitsGo (mem (index + i)) (y0 + i) x0 0 (min (x0 + 8) WIDTH - x0) (S, V)).2) from rfl]
    rw [ih]
    rw [drawBitsGo_fst]
    by_cases h1 : r = y0 + i ∧ x0 + 0 ≤ c ∧ c < x0 + 0 + (min (x0 + 8) WIDTH - x0)
    · rw [if_neg (by omega), if_pos h1, if_pos (by omega)]
      rw [show index + (r - y0) = index + i by omega]
    · rw [if_neg h1]
      by_cases h2 : y0 + (i + 1) ≤ r ∧ r < y0 + (i + 1) + m ∧ x0 ≤ c ∧ c < x0 + (min (x0 + 8) WIDTH - x0)
      · rw [if_pos h2, if_pos (by omega)]
      · rw [if_neg h2, if_neg (by omega)]

theorem drawRowsGo_snd (mem : Nat → Nat) (index x0 y0 : Nat) :
    ∀ (rem i : Nat) (S : Screen) (V : Nat),
    (drawRowsGo mem index x0 y0 i rem (S, V)).2 =
      if ∃ a, a < rem ∧ ∃ k, k < min (x0 + 8) WIDTH - x0 ∧
          (S (y0 + i + a) (x0 + k) && bitOf (mem (index + i + a)) k) = true
      then 1 else V := by
  intro rem
  induction rem with
  | zero =>
    intro i S V
    simp only [drawRowsGo]
    rw [if_neg]
    rintro ⟨a, ha, -⟩
    omega
  | succ m ih =>
    intro i S V
    simp only [drawRowsGo]
    rw [show drawBitsGo (mem (index + i)) (y0 + i) x0 0 (min (x0 + 8) WIDTH - x0) (S, V)
        = ((drawBitsGo (mem (index + i)) (y0 + i) x0 0 (min (x0 + 8) WIDTH - x0) (S, V)).1,
           (drawBitsGo (mem (index + i)) (y0 + i) x0 0 (min (x0 + 8) WIDTH - x0) (S, V)).2) from rfl]
    rw [ih]
    rw [drawBitsGo_snd]
    have hiff : (∃ a, a < m ∧ ∃ k, k < min (x0 + 8) WIDTH - x0 ∧
        ((drawBitsGo (mem (index + i)) (y0 + i) x0 0 (min (x0 + 8) WIDTH - x0) (S, V)).1
            (y0 + (i + 1) + a) (x0 + k) && bitOf (mem (index + (i + 1) + a)) k) = true) ↔
        (∃ a, a < m ∧ ∃ k, k < min (x0 + 8) WIDTH - x0 ∧
          (S (y0 + (i + 1) + a) (x0 + k) && bitOf (mem (index + (i + 1) + a)) k) = true) := by
      refine exists_congr fun a => and_congr_right fun ha =>
        exists_congr fun k => and_congr_right fun hk => ?_
      rw [drawBitsGo_fst, if_neg (by omega)]
    rw [if_congr hiff rfl rfl]
    have h0iff : (∃ k, k < min (x0 + 8) WIDTH - x0 ∧
        (S (y0 + i) (x0 + 0 + k) && bitOf (mem (index + i)) (0 + k)) = true) ↔
        (∃ k, k < min (x0 + 8) WIDTH - x0 ∧
          (S (y0 + i + 0) (x0 + k) && bitOf (mem (index + i + 0)) k) = true) := by
      refine exists_congr fun k => and_congr_right fun hk => ?_
      rw [show x0 + 0 + k = x0 + k by omega, show 0 + k = k by omega,
          show y0 + i + 0 = y0 + i by omega, show index + i + 0 = index + i by omega]
    rw [if_congr h0iff rfl rfl]
    by_cases h0 : ∃ k, k < min (x0 + 8) WIDTH - x0 ∧
        (S (y0 + i + 0) (x0 + k) && bitOf (mem (index + i + 0)) k) = true
    · rw [if_pos h0, ite_self, if_pos ⟨0, by omega, h0⟩]
    · rw [if_neg h0]
      by_cases h2 : ∃ a, a < m ∧ ∃ k, k < min (x0 + 8) WIDTH - x0 ∧
          (S (y0 + (i + 1) + a) (x0 + k) && bitOf (mem (index + (i + 1) + a)) k) = true
      · obtain ⟨a, ha, hk⟩ := h2
        rw [if_pos ⟨a, ha, hk⟩, if_pos]
        refine ⟨a + 1, by omega, ?_⟩
        rw [show y0 + i + (a + 1) = y0 + (i + 1) + a by omega,
            show index + i + (a + 1) = index + (i + 1) + a by omega]
        exact hk
      · rw [if_neg h2, if_neg]
        rintro ⟨a, ha, hk⟩
        rcases Nat.eq_zero_or_pos a with hz | hp
        · subst hz
          exact h0 hk
        · refine h2 ⟨a - 1, by omega, ?_⟩
          rw [show y0 + (i + 1) + (a - 1) = y0 + i + a by omega,
              show index + (i + 1) + (a - 1) = index + i + a by omega]
          exact hk

theorem drawSprite_fst (mem : Nat → Nat) (index x0 y0 n : Nat) (screen : Screen) (r c : Nat) :
    (drawSprite mem index x0 y0 n screen).1 r c =
      if y0 ≤ r ∧ r < min (y0 + n) HEIGHT ∧ x0 ≤ c ∧ c < min (x0 + 8) WIDTH ∧ x0 < WIDTH
      then xor (screen r c) (bitOf (mem (index + (r - y0))) (c - x0)) else screen r c := by
  unfold drawSprite
  rw [drawRowsGo_fst]
  refine if_congr ?_ rfl rfl
  unfold WIDTH HEIGHT
  omega

theorem drawSprite_snd (mem : Nat → Nat) (index x0 y0 n : Nat) (screen : Screen) :
    (drawSprite mem index x0 y0 n screen).2 =
      if ∃ a, a < min (y0 + n) HEIGHT - y0 ∧ ∃ k, k < min (x0 + 8) WIDTH - x0 ∧
          (screen (y0 + a) (x0 + k) && bitOf (mem (index + a)) k) = true
      then 1 else 0 := by
  unfold drawSprite
  rw [drawRowsGo_snd]
  refine if_congr ?_ rfl rfl
  refine exists_congr fun a => and_congr ?_ (exists_congr fun k => and_congr_right fun hk => ?_)
  · constructor <;> omega
  · rw [show y0 + 0 + a = y0 + a by omega, show index + 0 + a = index + a by omega]



/-- When every sprite row lies inside the 4096-byte store, the checked
draw loop succeeds and agrees with the unchecked one. -/
theorem drawRowsGoChecked_eq (mem : Nat → Nat) (index x0 y0 : Nat) :
    ∀ (rem i : Nat) (sv : Screen × Nat), index + i + rem ≤ 4096 →
      drawRowsGoChecked mem index x0 y0 i rem sv
        = some (drawRowsGo mem index x0 y0 i rem sv) := by
  intro rem
  induction rem with
  | zero => intro i sv h; rfl
  | succ m ih =>
    intro i sv h
    simp only [drawRowsGoChecked, drawRowsGo]
    rw [if_pos (by omega)]
    exact ih (i + 1) _ (by omega)

theorem drawSpriteChecked_eq (mem : Nat → Nat) (index x0 y0 n : Nat) (screen : Screen)
    (h : index + n ≤ 4096) :
    drawSpriteChecked mem index x0 y0 n screen = some (drawSprite mem index x0 y0 n screen) := by
  unfold drawSpriteChecked drawSprite
  refine drawRowsGoChecked_eq mem index x0 y0 _ 0 (screen, 0) ?_
  simp only [HEIGHT]
  omega

theorem exeArm0_preserves (s : Interpreter) (x y n : Nat)
    (s' : Interpreter) (h : exeArm0 s x y n = .ok s') :
    s'.keys = s.keys ∧ s'.last_pressed_frames_ago = s.last_pressed_frames_ago ∧
      s'.halt = s.halt := by
  delta exeArm0 at h
  rcases hst : s.stack with - | ⟨a, rest⟩ <;> rw [hst] at h <;>
  repeat' (first
    | exact (Except.noConfusion h)
    | (injection h with h; subst h; exact ⟨rfl, rfl, rfl⟩)
    | (injection h with h; subst h;
       exact ⟨by split <;> rfl, by split <;> rfl, by split <;> rfl⟩)
    | (rw [ite_eq_iff] at h; rcases h with ⟨-, h⟩ | ⟨-, h⟩))

theorem exeArm8_preserves (s : Interpreter) (opcode x y n : Nat)
    (s' : Interpreter) (h : exeArm8 s opcode x y n = .ok s') :
    s'.keys = s.keys ∧ s'.last_pressed_frames_ago = s.last_pressed_frames_ago ∧
      s'.halt = s.halt := by
  delta exeArm8 at h
  repeat' (first
    | exact (Except.noConfusion h)
    | (injection h with h; subst h; exact ⟨rfl, rfl, rfl⟩)
    | (injection h with h; subst h;
       exact ⟨by split <;> rfl, by split <;> rfl, by split <;> rfl⟩)
    | (rw [ite_eq_iff] at h; rcases h with ⟨-, h⟩ | ⟨-, h⟩))

theorem exeArmE_preserves (s : Interpreter) (opcode x y n : Nat)
    (s' : Interpreter) (h : exeArmE s opcode x y n = .ok s') :
    s'.keys = s.keys ∧ s'.last_pressed_frames_ago = s.last_pressed_frames_ago ∧
      s'.halt = s.halt := by
  delta exeArmE at h
  repeat' (first
    | exact (Except.noConfusion h)
    | (injection h with h; subst h; exact ⟨rfl, rfl, rfl⟩)
    | (injection h with h; subst h;
       exact ⟨by split <;> rfl, by split <;> rfl, by split <;> rfl⟩)
    | (rw [ite_eq_iff] at h; rcases h with ⟨-, h⟩ | ⟨-, h⟩))

theorem exeArmF_preserves (s : Interpreter) (opcode x y n : Nat)
    (s' : Interpreter) (h : exeArmF s opcode x y n = .ok s') :
    s'.keys = s.keys ∧ s'.last_pressed_frames_ago = s.last_pressed_frames_ago ∧
      s'.halt = s.halt := by
  delta exeArmF at h
  rcases hlp : s.last_pressed_frames_ago with - | ⟨k, a⟩ <;> rw [hlp] at h <;>
  repeat' (first
    | exact (Except.noConfusion h)
    | (injection h with h; subst h; exact ⟨rfl, rfl, rfl⟩)
    | (injection h with h; subst h; exact ⟨rfl, rfl, hlp ▸ rfl⟩)
    | (injection h with h; subst h;
       exact ⟨by split <;> rfl, by split <;> rfl, by split <;> rfl⟩)
    | (rw [ite_eq_iff] at h; rcases h with ⟨-, h⟩ | ⟨-, h⟩))

theorem exeDecoded_preserves (rand : Nat) (s : Interpreter) (opcode c x y n nn nnn : Nat)
    (s' : Interpreter) (h : exeDecoded rand s opcode c x y n nn nnn = .ok s') :
    s'.keys = s.keys ∧ s'.last_pressed_frames_ago = s.last_pressed_frames_ago ∧
      s'.halt = s.halt := by
  delta exeDecoded at h
  rcases hds : drawSpriteChecked s.memory s.index (setAt s.registers 0xF 0 x % WIDTH)
      (setAt s.registers 0xF 0 y % HEIGHT) n s.screen with - | res <;> rw [hds] at h <;>
  repeat' (first
    | exact (Except.noConfusion h)
    | exact exeArm0_preserves _ _ _ _ _ h
    | exact exeArm8_preserves _ _ _ _ _ _ h
    | exact exeArmE_preserves _ _ _ _ _ _ h
    | exact exeArmF_preserves _ _ _ _ _ _ h
    | (injection h with h; subst h; exact ⟨rfl, rfl, rfl⟩)
    | (injection h with h; subst h;
       exact ⟨by split <;> rfl, by split <;> rfl, by split <;> rfl⟩)
    | (rw [ite_eq_iff] at h; rcases h with ⟨-, h⟩ | ⟨-, h⟩))

theorem exe_preserves (rand : Nat) (s s' : Interpreter) (h : exe rand s = .ok s') :
    s'.keys = s.keys ∧ s'.last_pressed_frames_ago = s.last_pressed_frames_ago ∧
      s'.halt = s.halt := by
  delta exe at h
  rw [ite_eq_iff] at h
  rcases h with ⟨-, h⟩ | ⟨-, h⟩
  · injection h with h; subst h; exact ⟨rfl, rfl, rfl⟩
  · exact exeDecoded_preserves rand { s with program_counter := s.program_counter + 2 } _ _ _ _ _ _ _ s' h



theorem setAt_same {α : Type} (f : Nat → α) (i : Nat) (v : α) : setAt f i v i = v := by
  simp [setAt]

theorem setAt_other {α : Type} (f : Nat → α) (i j : Nat) (v : α) (h : j ≠ i) :
    setAt f i v j = f j := by
  simp [setAt, h]

theorem runExe_preserves (rands : Nat → Nat) :
    ∀ (k : Nat) (s s' : Interpreter), runExe rands k s = .ok s' →
      s'.keys = s.keys ∧ s'.last_pressed_frames_ago = s.last_pressed_frames_ago ∧
        s'.halt = s.halt := by
  intro k
  induction k with
  | zero =>
    intro s s' h
    injection h with h
    subst h
    exact ⟨rfl, rfl, rfl⟩
  | succ m ih =>
    intro s s' h
    simp only [runExe] at h
    rcases he : exe (rands m) s with e | t
    · rw [he] at h
      exact (Except.noConfusion h)
    · rw [he] at h
      obtain ⟨h1, h2, h3⟩ := exe_preserves _ _ _ he
      obtain ⟨h4, h5, h6⟩ := ih t s' h
      exact ⟨h4.trans h1, h5.trans h2, h6.trans h3⟩

theorem runExe_halt (rands : Nat → Nat) :
    ∀ (k : Nat) (s : Interpreter), s.halt = true → runExe rands k s = .ok s := by
  intro k
  induction k with
  | zero => intro s h; rfl
  | succ m ih =>
    intro s h
    simp only [runExe, exe, h, if_pos]
    exact ih s h

theorem update_ok_keys (ev : List (Nat × Bool)) (rnd : Nat → Nat) (t t' : Interpreter)
    (h : update ev rnd t = .ok t') :
    t'.keys = (applyKeyEvents ev (ageKeys t)).keys := by
  delta update at h
  rcases hru : runExe rnd IPF (applyKeyEvents ev (ageKeys t)) with e | u
  · rw [hru] at h
    exact (Except.noConfusion h)
  · rw [hru] at h
    injection h with h
    subst h
    exact (runExe_preserves rnd IPF _ u hru).1

theorem applyEventsGo_pressed_stays_zero (k : Nat) :
    ∀ (evs : List (Nat × Bool)) (t : Interpreter) (l : Option Nat),
    ((t.keys k).pressed_frames_ago = 0) →
    (((applyEventsGo evs (t, l)).1.keys k).pressed_frames_ago = 0) := by
  intro evs
  induction evs with
  | nil => intro t l h; exact h
  | cons e rest ih =>
    intro t l h
    rcases e with ⟨k', b⟩
    cases b
    · simp only [applyEventsGo, Bool.false_eq_true, if_false]
      refine ih _ _ ?_
      by_cases hk : k = k'
      · subst hk
        simpa [setAt, KeyState.release] using h
      · simpa [setAt, hk] using h
    · simp only [applyEventsGo, if_pos]
      refine ih _ _ ?_
      by_cases hk : k = k'
      · subst hk
        simp [setAt, KeyState.press]
      · simpa [setAt, hk] using h

theorem applyEventsGo_pressed_zero (k : Nat) :
    ∀ (evs : List (Nat × Bool)) (t : Interpreter) (l : Option Nat),
    (k, true) ∈ evs →
    (((applyEventsGo evs (t, l)).1.keys k).pressed_frames_ago = 0) := by
  intro evs
  induction evs with
  | nil => intro t l h; cases h
  | cons e rest ih =>
    intro t l h
    rcases e with ⟨k', b⟩
    rcases List.mem_cons.1 h with heq | hmem
    · injection heq with h1 h2
      subst h1
      subst h2
      simp only [applyEventsGo, if_pos]
      refine applyEventsGo_pressed_stays_zero k rest _ _ ?_
      simp [setAt, KeyState.press]
    · cases b
      · simp only [applyEventsGo, Bool.false_eq_true, if_false]
        exact ih _ _ hmem
      · simp only [applyEventsGo, if_pos]
        exact ih _ _ hmem

theorem applyEventsGo_no_press (k : Nat) :
    ∀ (evs : List (Nat × Bool)) (t : Interpreter) (l : Option Nat),
    (∀ b, (k, b) ∈ evs → b = false) →
    (((applyEventsGo evs (t, l)).1.keys k).pressed_frames_ago
      = (t.keys k).pressed_frames_ago) := by
  intro evs
  induction evs with
  | nil => intro t l h; rfl
  | cons e rest ih =>
    intro t l h
    rcases e with ⟨k', b⟩
    cases b
    · simp only [applyEventsGo, Bool.false_eq_true, if_false]
      rw [ih _ _ (fun b hb => h b (List.mem_cons_of_mem _ hb))]
      by_cases hk : k = k'
      · subst hk
        simp [setAt, KeyState.release]
      · simp [setAt, hk]
    · by_cases hk : k = k'
      · exfalso
        subst hk
        simpa using h true (List.mem_cons_self _ _)
      · simp only [applyEventsGo, if_pos]
        rw [ih _ _ (fun b hb => h b (List.mem_cons_of_mem _ hb))]
        simp [setAt, hk]

theorem applyKeyEvents_keys (evs : List (Nat × Bool)) (t : Interpreter) :
    (applyKeyEvents evs t).keys = (applyEventsGo evs (t, none)).1.keys := by
  delta applyKeyEvents
  rcases h : applyEventsGo evs (t, none) with ⟨u, l⟩
  rcases l with - | k
  · rfl
  · rfl



theorem update_pressed_age (k : Nat) (ev : List (Nat × Bool)) (rnd : Nat → Nat)
    (t t' : Interpreter) (h : update ev rnd t = .ok t')
    (hev : ∀ b, (k, b) ∈ ev → b = false) :
    (t'.keys k).pressed_frames_ago
      = min (((t.keys k).pressed_frames_ago + 1) % 256) 60 := by
  have h1 := update_ok_keys ev rnd t t' h
  have h2 : (t'.keys k).pressed_frames_ago
      = (((ageKeys t).keys k).pressed_frames_ago) := by
    rw [h1, applyKeyEvents_keys]
    exact applyEventsGo_no_press k ev (ageKeys t) none hev
  rw [h2]
  rfl

theorem runTicks_pressed_age (k : Nat) :
    ∀ (ticks : List (List (Nat × Bool) × (Nat → Nat))) (t t' : Interpreter) (a : Nat),
    (t.keys k).pressed_frames_ago = a → a ≤ 60 →
    (∀ p ∈ ticks, ∀ b, (k, b) ∈ p.1 → b = false) →
    runTicks ticks t = .ok t' →
    (t'.keys k).pressed_frames_ago = min (a + ticks.length) 60 := by
  intro ticks
  induction ticks with
  | nil =>
    intro t t' a ha hb hev h
    injection h with h
    subst h
    rw [ha]
    simp
    omega
  | cons p rest ih =>
    intro t t' a ha hb hev h
    rcases p with ⟨ev, rnd⟩
    simp only [runTicks] at h
    rcases hu : update ev rnd t with e | u
    · rw [hu] at h
      exact (Except.noConfusion h)
    · rw [hu] at h
      have hage := update_pressed_age k ev rnd t u hu
        (fun b hbm => hev (ev, rnd) (List.mem_cons_self _ _) b hbm)
      rw [ha] at hage
      have : ((u.keys k).pressed_frames_ago) = min (a + 1) 60 := by
        rw [hage]
        omega
      have hfin := ih u t' (min (a + 1) 60) this (by omega)
        (fun p hp b hbm => hev p (List.mem_cons_of_mem _ hp) b hbm) h
      rw [hfin]
      simp only [List.length_cons]
      omega



/-- C8: a key press event applied in some tick makes the debounced
is_pressed predicate true for that tick and the following three ticks, and
false from the fourth subsequent tick onward, absent further press events
for that key; the press age is clamped at 60 and so never overflows the
8-bit counter. -/
theorem keypad_debounce_window (k : Nat) (ev : List (Nat × Bool)) (rnd : Nat → Nat)
    (s s0 s1 : Interpreter) (ticks : List (List (Nat × Bool) × (Nat → Nat)))
    (hev : (k, true) ∈ ev)
    (h0 : update ev rnd s = .ok s0)
    (hticks : ∀ p ∈ ticks, ∀ b, (k, b) ∈ p.1 → b = false)
    (h1 : runTicks ticks s0 = .ok s1) :
    (s0.keys k).is_pressed = true ∧
    (s1.keys k).pressed_frames_ago = min ticks.length 60 ∧
    ((s1.keys k).is_pressed = true ↔ ticks.length ≤ 3) ∧
    (s1.keys k).pressed_frames_ago ≤ 60 := by
  have hz : (s0.keys k).pressed_frames_ago = 0 := by
    rw [update_ok_keys ev rnd s s0 h0, applyKeyEvents_keys]
    exact applyEventsGo_pressed_zero k ev (ageKeys s) none hev
  have hfin := runTicks_pressed_age k ticks s0 s1 0 hz (by omega) hticks h1
  refine ⟨?_, ?_, ?_, ?_⟩
  · simp [KeyState.is_pressed, hz]
  · rw [hfin]
    omega
  · simp only [KeyState.is_pressed, decide_eq_true_eq, hfin]
    omega
  · rw [hfin]
    omega

def c8start : Interpreter := { initState with halt := true }

def c8w0 : Interpreter := tickAfter (applyKeyEvents [(4, true)] (ageKeys c8start))

def c8w1 : Interpreter := tickAfter (applyKeyEvents [] (ageKeys c8w0))

def c8w2 : Interpreter := tickAfter (applyKeyEvents [] (ageKeys c8w1))

def c8w3 : Interpreter := tickAfter (applyKeyEvents [] (ageKeys c8w2))

def c8w4 : Interpreter := tickAfter (applyKeyEvents [] (ageKeys c8w3))

set_option maxRecDepth 8000 in
/-- Witness for the C8 theorem at a concrete run: key 4 pressed in one
tick, then four further ticks without events. -/
theorem keypad_debounce_window_witness :
    (c8w0.keys 4).is_pressed = true ∧
    (c8w4.keys 4).pressed_frames_ago = min 4 60 ∧
    ((c8w4.keys 4).is_pressed = true ↔ (4 : Nat) ≤ 3) ∧
    (c8w4.keys 4).pressed_frames_ago ≤ 60 :=
  keypad_debounce_window 4 [(4, true)] (fun _ => 0) c8start c8w0 c8w4
    [([], fun _ => 0), ([], fun _ => 0), ([], fun _ => 0), ([], fun _ => 0)]
    (by simp) rfl
    (by
      intro p hp b hb
      simp only [List.mem_cons, List.not_mem_nil, or_false] at hp
      rcases hp with h | h | h | h <;> subst h <;> simp at hb)
    rfl



/-- C1 (amended): relative to the state reached after the instruction batch
of a tick, update decrements each timer once, modulo 60, provided the timer
value fits below 197 so that the 8-bit addition t + 59 does not wrap. -/
theorem update_timer_decrement (ev : List (Nat × Bool)) (rnd : Nat → Nat)
    (s t : Interpreter)
    (hb : runExe rnd IPF (applyKeyEvents ev (ageKeys s)) = .ok t)
    (hd : t.delay_timer ≤ 196) (hs : t.sound_timer ≤ 196) :
    (update ev rnd s).map Interpreter.delay_timer = .ok ((t.delay_timer + 59) % 60) ∧
    (update ev rnd s).map Interpreter.sound_timer = .ok ((t.sound_timer + 59) % 60) := by
  delta update
  rw [hb]
  constructor
  · simp only [Except.map, tickAfter]
    congr 1
    omega
  · simp only [Except.map, tickAfter]
    congr 1
    omega

def c1wState : Interpreter := { initState with halt := true, delay_timer := 7, sound_timer := 61 }

def c1wPrep : Interpreter := applyKeyEvents [] (ageKeys c1wState)

set_option maxRecDepth 8000 in
/-- Witness for the C1 theorem: a tick whose batch leaves the delay timer
at 7 and the sound timer at 61 yields 6 and 0 after the decrement. -/
theorem update_timer_decrement_witness :
    ((update [] (fun _ => 0) c1wState).map Interpreter.delay_timer = .ok ((c1wPrep.delay_timer + 59) % 60) ∧
     (update [] (fun _ => 0) c1wState).map Interpreter.sound_timer = .ok ((c1wPrep.sound_timer + 59) % 60)) ∧
    (c1wPrep.delay_timer + 59) % 60 = 6 ∧ (c1wPrep.sound_timer + 59) % 60 = 0 :=
  ⟨update_timer_decrement [] (fun _ => 0) c1wState c1wPrep
      (runExe_halt (fun _ => 0) IPF c1wPrep rfl) (by decide) (by decide),
    by decide, by decide⟩

def c1mem : Nat → Nat := fun a =>
  if a = 0x200 then 0x60 else if a = 0x201 then 0xFA else
  if a = 0x202 then 0xF0 else if a = 0x203 then 0x15 else
  if a = 0x204 then 0x12 else if a = 0x205 then 0x04 else 0

def c1cexState : Interpreter := { initState with memory := c1mem }

def c1prep : Interpreter := applyKeyEvents [] (ageKeys c1cexState)

def c1s1 : Interpreter := { c1prep with program_counter := 0x202, registers := setAt c1prep.registers 0 250 }

def c1s2 : Interpreter := { c1s1 with program_counter := 0x204, delay_timer := 250 }

theorem runExe_cons (rands : Nat → Nat) (k : Nat) (s t : Interpreter)
    (h : exe (rands k) s = .ok t) :
    runExe rands (k + 1) s = runExe rands k t := by
  simp only [runExe]
  rw [h]

theorem c1_loop (rands : Nat → Nat) :
    ∀ (k : Nat) (s : Interpreter), s.halt = false → s.memory = c1mem →
      s.program_counter = 0x204 → runExe rands k s = .ok s := by
  intro k
  induction k with
  | zero => intro s h1 h2 h3; rfl
  | succ m ih =>
    intro s h1 h2 h3
    have hop : read_opcode s = 0x1204 := by
      unfold read_opcode
      rw [h2, h3]
      rfl
    have hexe : exe (rands m) s = .ok s := by
      unfold exe
      rw [h1, hop]
      norm_num
      unfold exeDecoded
      norm_num
      rcases s with ⟨mem, scr, pc, idx, stk, dt, st, regs, hl, ks, lp⟩
      simp only at h3 h1
      subst h3
      simp [h1]
    rw [runExe_cons rands m s s hexe]
    exact ih s h1 h2 h3

theorem c1_batch : runExe (fun _ => 0) IPF c1prep = .ok c1s2 := by
  have e1 : exe ((fun _ => 0) (999 : Nat)) c1prep = .ok c1s1 := rfl
  have e2 : exe ((fun _ => 0) (998 : Nat)) c1s1 = .ok c1s2 := rfl
  have h1 : runExe (fun _ => 0) IPF c1prep = runExe (fun _ => 0) 999 c1s1 :=
    runExe_cons (fun _ => 0) 999 c1prep c1s1 e1
  have h2 : runExe (fun _ => 0) 999 c1s1 = runExe (fun _ => 0) 998 c1s2 :=
    runExe_cons (fun _ => 0) 998 c1s1 c1s2 e2
  rw [h1, h2]
  exact c1_loop (fun _ => 0) 998 c1s2 rfl rfl rfl

/-- C1 counterexample: a program that sets the delay timer to 250 through
FX15 and then loops; after the tick the timer reads 53, the 8-bit wrap of
250 + 59 reduced modulo 60, whereas a decrement by one modulo 60 would
give 9. -/
theorem update_timer_wrap_cex :
    (runExe (fun _ => 0) IPF c1prep).map Interpreter.delay_timer = .ok 250 ∧
    (update [] (fun _ => 0) c1cexState).map Interpreter.delay_timer = .ok 53 ∧
    (53 : Nat) ≠ (250 + 59) % 60 := by
  refine ⟨?_, ?_, by decide⟩
  · rw [c1_batch]
    rfl
  · delta update
    rw [show applyKeyEvents [] (ageKeys c1cexState) = c1prep from rfl, c1_batch]
    rfl



theorem keywait_spec (rand : Nat) (s : Interpreter) (x : Nat)
    (hh : s.halt = false) (hx : x < 16)
    (hb0 : s.memory s.program_counter = 0xF0 + x)
    (hb1 : s.memory (s.program_counter + 1) = 0x0A) :
    (s.last_pressed_frames_ago = none → exe rand s = .ok s) ∧
    (∀ k a, s.last_pressed_frames_ago = some (k, a) → a ≠ 0 → exe rand s = .ok s) ∧
    (∀ k, s.last_pressed_frames_ago = some (k, 0) →
      exe rand s = .ok { s with program_counter := s.program_counter + 2, registers := setAt s.registers x k }) := by
  have hop : read_opcode s = (0xF0 + x) * 256 + 0x0A := by
    unfold read_opcode
    rw [hb0, hb1]
    omega
  have hc : ((0xF0 + x) * 256 + 0x0A) / 4096 = 0xF := by omega
  have hxd : ((0xF0 + x) * 256 + 0x0A) / 256 % 16 = x := by omega
  have hy : ((0xF0 + x) * 256 + 0x0A) / 16 % 16 = 0 := by omega
  have hn : ((0xF0 + x) * 256 + 0x0A) % 16 = 0xA := by omega
  have harith : s.program_counter + 2 - 2 = s.program_counter := by omega
  refine ⟨?_, ?_, ?_⟩
  · intro hp
    unfold exe
    rw [if_neg (show ¬ s.halt = true by simp [hh]), hop, hc, hxd, hy, hn]
    unfold exeDecoded
    norm_num
    unfold exeArmF
    norm_num
    rw [hp]
    norm_num [harith]
    rw [← hp]
  · intro k a hp ha
    unfold exe
    rw [if_neg (show ¬ s.halt = true by simp [hh]), hop, hc, hxd, hy, hn]
    unfold exeDecoded
    norm_num
    unfold exeArmF
    norm_num
    rw [hp]
    norm_num [ha, harith]
    rw [← hp]
  · intro k hp
    unfold exe
    rw [if_neg (show ¬ s.halt = true by simp [hh]), hop, hc, hxd, hy, hn]
    unfold exeDecoded
    norm_num
    unfold exeArmF
    norm_num
    rw [hp]
    norm_num


/-- C3: the blocking key-wait instruction FX0A leaves the state unchanged
(the program counter is re-decremented by 2 after the fetch advance) when
no PendingKeyWait record exists or when the record has age greater than 0;
when the record exists with age exactly 0 the instruction completes, VX is
set to the recorded key code and the program counter advances by 2. -/
theorem keywait_blocks_unless_fresh (rand : Nat) (s : Interpreter) (x : Nat)
    (hh : s.halt = false) (hx : x < 16)
    (hb0 : s.memory s.program_counter = 0xF0 + x)
    (hb1 : s.memory (s.program_counter + 1) = 0x0A) :
    (s.last_pressed_frames_ago = none → exe rand s = .ok s) ∧
    (∀ k a, s.last_pressed_frames_ago = some (k, a) → a ≠ 0 → exe rand s = .ok s) ∧
    (∀ k, s.last_pressed_frames_ago = some (k, 0) →
      exe rand s = .ok { s with program_counter := s.program_counter + 2, registers := setAt s.registers x k }) :=
  keywait_spec rand s x hh hx hb0 hb1

def c3wState : Interpreter :=
  { initState with memory := fun a => if a = 0x200 then 0xF1 else if a = 0x201 then 0x0A else 0 }

/-- Witness for the C3 theorem: an FX0A instruction with no pending key
record blocks, leaving the whole state unchanged. -/
theorem keywait_blocks_unless_fresh_witness : exe 0 c3wState = .ok c3wState :=
  (keywait_blocks_unless_fresh 0 c3wState 1 rfl (by decide) rfl rfl).1 rfl

/-- C9 (amended): the PendingKeyWait record is not consumed by FX0A: no
instruction ever changes it, so a second FX0A executed later in the same
tick (while the age is still 0) completes again with the same key; the
record only stops satisfying FX0A when update increments its age at the
end of the tick. -/
theorem keywait_record_not_consumed :
    (∀ (rand : Nat) (s s' : Interpreter), exe rand s = .ok s' →
      s'.last_pressed_frames_ago = s.last_pressed_frames_ago) ∧
    (∀ (rand1 rand2 : Nat) (s : Interpreter) (x1 x2 k : Nat),
      s.halt = false → x1 < 16 → x2 < 16 →
      s.memory s.program_counter = 0xF0 + x1 →
      s.memory (s.program_counter + 1) = 0x0A →
      s.memory (s.program_counter + 2) = 0xF0 + x2 →
      s.memory (s.program_counter + 3) = 0x0A →
      s.last_pressed_frames_ago = some (k, 0) →
      ∃ s1 s2, exe rand1 s = .ok s1 ∧ exe rand2 s1 = .ok s2 ∧
        s1.registers x1 = k ∧ s2.registers x2 = k ∧
        s2.program_counter = s.program_counter + 4 ∧
        s2.last_pressed_frames_ago = some (k, 0)) := by
  constructor
  · intro rand s s' h
    exact (exe_preserves rand s s' h).2.1
  · intro rand1 rand2 s x1 x2 k hh hx1 hx2 hb0 hb1 hb2 hb3 hp
    have h1 := (keywait_spec rand1 s x1 hh hx1 hb0 hb1).2.2 k hp
    have h2 := (keywait_spec rand2
        { s with program_counter := s.program_counter + 2, registers := setAt s.registers x1 k }
        x2 hh hx2 hb2 hb3).2.2 k hp
    refine ⟨_, _, h1, h2, ?_, ?_, ?_, hp⟩
    · exact setAt_same s.registers x1 k
    · exact setAt_same (setAt s.registers x1 k) x2 k
    · show s.program_counter + 2 + 2 = s.program_counter + 4
      omega

def c9cexState : Interpreter :=
  { initState with
    memory := fun a => if a = 0x200 then 0xF1 else if a = 0x201 then 0x0A else if a = 0x202 then 0xF2 else if a = 0x203 then 0x0A else 0,
    last_pressed_frames_ago := some (5, 0) }

/-- Witness for the C9 theorem: with a pending record (5, 0) and two FX0A
instructions in a row, both complete with key 5 and the record survives. -/
theorem keywait_record_not_consumed_witness :
    ∃ s1 s2, exe 0 c9cexState = .ok s1 ∧ exe 0 s1 = .ok s2 ∧
      s1.registers 1 = 5 ∧ s2.registers 2 = 5 ∧
      s2.program_counter = c9cexState.program_counter + 4 ∧
      s2.last_pressed_frames_ago = some (5, 0) :=
  keywait_record_not_consumed.2 0 0 c9cexState 1 2 5 rfl (by decide) (by decide) rfl rfl rfl rfl rfl

/-- C9 counterexample: the claim says a second FX0A in the same tick
blocks after the first one completes; in fact both complete, the program
counter advances by 4 and both target registers receive the key, the
pending record being left in place. -/
theorem keywait_double_complete_cex :
    (runExe (fun _ => 0) 2 c9cexState).map
        (fun t => (t.program_counter, t.registers 1, t.registers 2, t.last_pressed_frames_ago))
      = .ok (0x204, 5, 5, some (5, 0)) := rfl



/-- C7: the add-immediate instruction 7XNN computes VX := (VX + nn) mod 256
with wrapping 8-bit arithmetic and never faults, also when the sum exceeds
255. -/
theorem add_immediate_wraps (rand : Nat) (s : Interpreter) (x nn : Nat)
    (hh : s.halt = false) (hx : x < 16) (hnn : nn < 256)
    (hb0 : s.memory s.program_counter = 0x70 + x)
    (hb1 : s.memory (s.program_counter + 1) = nn) :
    exe rand s = .ok { s with program_counter := s.program_counter + 2, registers := setAt s.registers x ((s.registers x + nn) % 256) } := by
  have hop : read_opcode s = (0x70 + x) * 256 + nn := by
    unfold read_opcode
    rw [hb0, hb1]
    omega
  have hc : ((0x70 + x) * 256 + nn) / 4096 = 7 := by omega
  have hxd : ((0x70 + x) * 256 + nn) / 256 % 16 = x := by omega
  have hnnd : ((0x70 + x) * 256 + nn) % 256 = nn := by omega
  unfold exe
  rw [if_neg (show ¬ s.halt = true by simp [hh]), hop, hc, hxd, hnnd]
  unfold exeDecoded
  norm_num

def c7wState : Interpreter :=
  { initState with
    memory := fun a => if a = 0x200 then 0x70 else if a = 0x201 then 100 else 0,
    registers := setAt (fun _ => 0) 0 200 }

/-- Witness for the C7 theorem: V0 = 200 plus immediate 100 yields 44 with
no fault. -/
theorem add_immediate_wraps_witness :
    exe 0 c7wState = .ok { c7wState with program_counter := c7wState.program_counter + 2, registers := setAt c7wState.registers 0 ((c7wState.registers 0 + 100) % 256) } ∧
    (c7wState.registers 0 + 100) % 256 = 44 :=
  ⟨add_immediate_wraps 0 c7wState 0 100 rfl (by decide) (by decide) rfl rfl, by decide⟩

/-- C2 (amended): the call stack is an unbounded vector; a 2NNN call always
succeeds, pushing the return address onto the stack whatever its current
depth, with no capacity check and no StackOverflow condition. -/
theorem call_pushes_unbounded (rand : Nat) (s : Interpreter) (a b : Nat)
    (hh : s.halt = false) (ha : a < 16) (hb : b < 256)
    (hb0 : s.memory s.program_counter = 0x20 + a)
    (hb1 : s.memory (s.program_counter + 1) = b) :
    exe rand s = .ok { s with stack := (s.program_counter + 2) % 65536 :: s.stack, program_counter := a * 256 + b } := by
  have hop : read_opcode s = (0x20 + a) * 256 + b := by
    unfold read_opcode
    rw [hb0, hb1]
    omega
  have hc : ((0x20 + a) * 256 + b) / 4096 = 2 := by omega
  have hnnn : ((0x20 + a) * 256 + b) % 4096 = a * 256 + b := by omega
  unfold exe
  rw [if_neg (show ¬ s.halt = true by simp [hh]), hop, hc, hnnn]
  unfold exeDecoded
  norm_num

def c2wState : Interpreter :=
  { initState with
    memory := fun a => if a = 0x200 then 0x23 else 0,
    stack := List.replicate 16 0x202 }

/-- Witness for the C2 theorem: a call executed with the stack already at
the hardware depth of 16 still succeeds and leaves 17 return addresses. -/
theorem call_pushes_unbounded_witness :
    exe 0 c2wState = .ok { c2wState with stack := (c2wState.program_counter + 2) % 65536 :: c2wState.stack, program_counter := 3 * 256 + 0 } ∧
    ((c2wState.program_counter + 2) % 65536 :: c2wState.stack).length = 17 :=
  ⟨call_pushes_unbounded 0 c2wState 3 0 rfl (by decide) (by decide) rfl rfl, by decide⟩

def c2cexState : Interpreter :=
  { initState with memory := fun a => if a = 0x200 then 0x22 else 0 }

/-- C2 counterexample: seventeen nested calls without matching returns do
not raise any error; the seventeenth push succeeds silently and the stack
holds 17 return addresses. -/
theorem seventeen_calls_no_overflow_cex :
    (runExe (fun _ => 0) 17 c2cexState).map (fun t => (t.program_counter, t.stack.length))
      = .ok (0x200, 17) := rfl


set_option maxHeartbeats 1000000 in
/-- C6 (amended): an opcode that matches none of the match arms is fatal:
the 0-group outside 00E0/00EE hits the machine-language-subroutine panic,
and the 8-, E- and F-groups with an unrecognized suffix hit the
wrong-opcode panic.  However the recognized forms are broader than the
canonical instruction list: 5XYk and 9XYk are decoded as the register skip
instructions for every low nibble k, not only k = 0, so such words execute
as skips instead of faulting. -/
theorem unknown_opcode_dispatch :
    (∀ (rand : Nat) (s : Interpreter) (a b1 : Nat),
      s.halt = false → a < 16 → b1 < 256 →
      s.memory s.program_counter = a →
      s.memory (s.program_counter + 1) = b1 →
      ¬(a = 0 ∧ b1 = 0xE0) → ¬(a = 0 ∧ b1 = 0xEE) →
      exe rand s = .error .machineSubroutine) ∧
    (∀ (rand : Nat) (s : Interpreter) (a b1 : Nat),
      s.halt = false → a < 16 → b1 < 256 →
      s.memory s.program_counter = 0x80 + a →
      s.memory (s.program_counter + 1) = b1 →
      8 ≤ b1 % 16 → b1 % 16 ≠ 14 →
      exe rand s = .error (.unknownOpcode ((0x80 + a) * 256 + b1))) ∧
    (∀ (rand : Nat) (s : Interpreter) (a b1 : Nat),
      s.halt = false → a < 16 → b1 < 256 →
      s.memory s.program_counter = 0xE0 + a →
      s.memory (s.program_counter + 1) = b1 →
      b1 ≠ 0x9E → b1 ≠ 0xA1 →
      exe rand s = .error (.unknownOpcode ((0xE0 + a) * 256 + b1))) ∧
    (∀ (rand : Nat) (s : Interpreter) (a b1 : Nat),
      s.halt = false → a < 16 → b1 < 256 →
      s.memory s.program_counter = 0xF0 + a →
      s.memory (s.program_counter + 1) = b1 →
      b1 ≠ 0x07 → b1 ≠ 0x0A → b1 ≠ 0x15 → b1 ≠ 0x18 → b1 ≠ 0x1E →
      b1 ≠ 0x29 → b1 ≠ 0x33 → b1 ≠ 0x55 → b1 ≠ 0x65 →
      exe rand s = .error (.unknownOpcode ((0xF0 + a) * 256 + b1))) ∧
    (∀ (rand : Nat) (s : Interpreter) (a b1 : Nat),
      s.halt = false → a < 16 → b1 < 256 →
      s.memory s.program_counter = 0x50 + a →
      s.memory (s.program_counter + 1) = b1 →
      exe rand s = .ok (if s.registers a = s.registers (b1 / 16)
        then { s with program_counter := s.program_counter + 2 + 2 }
        else { s with program_counter := s.program_counter + 2 })) ∧
    (∀ (rand : Nat) (s : Interpreter) (a b1 : Nat),
      s.halt = false → a < 16 → b1 < 256 →
      s.memory s.program_counter = 0x90 + a →
      s.memory (s.program_counter + 1) = b1 →
      exe rand s = .ok (if s.registers a ≠ s.registers (b1 / 16)
        then { s with program_counter := s.program_counter + 2 + 2 }
        else { s with program_counter := s.program_counter + 2 })) := by
  refine ⟨?_, ?_, ?_, ?_, ?_, ?_⟩
  · intro rand s a b1 hh ha hb hb0 hb1 hne1 hne2
    have hop : read_opcode s = a * 256 + b1 := by
      unfold read_opcode
      rw [hb0, hb1]
      omega
    have hc : (a * 256 + b1) / 4096 = 0 := by omega
    have hxd : (a * 256 + b1) / 256 % 16 = a := by omega
    have hy : (a * 256 + b1) / 16 % 16 = b1 / 16 := by omega
    have hn : (a * 256 + b1) % 16 = b1 % 16 := by omega
    unfold exe
    rw [if_neg (show ¬ s.halt = true by simp [hh]), hop, hc, hxd, hy, hn]
    unfold exeDecoded
    norm_num
    unfold exeArm0
    have g1 : ¬ (a = 0 ∧ b1 / 16 = 14 ∧ b1 % 16 = 0) := by omega
    have g2 : ¬ (a = 0 ∧ b1 / 16 = 14 ∧ b1 % 16 = 14) := by omega
    rw [if_neg g1, if_neg g2]
  · intro rand s a b1 hh ha hb hb0 hb1 hge hne
    have hop : read_opcode s = (0x80 + a) * 256 + b1 := by
      unfold read_opcode
      rw [hb0, hb1]
      omega
    have hc : ((0x80 + a) * 256 + b1) / 4096 = 8 := by omega
    have hxd : ((0x80 + a) * 256 + b1) / 256 % 16 = a := by omega
    have hy : ((0x80 + a) * 256 + b1) / 16 % 16 = b1 / 16 := by omega
    have hn : ((0x80 + a) * 256 + b1) % 16 = b1 % 16 := by omega
    unfold exe
    rw [if_neg (show ¬ s.halt = true by simp [hh]), hop, hc, hxd, hy, hn]
    unfold exeDecoded
    norm_num
    unfold exeArm8
    have g0 : ¬ b1 % 16 = 0 := by omega
    have g1 : ¬ b1 % 16 = 1 := by omega
    have g2 : ¬ b1 % 16 = 2 := by omega
    have g3 : ¬ b1 % 16 = 3 := by omega
    have g4 : ¬ b1 % 16 = 4 := by omega
    have g5 : ¬ b1 % 16 = 5 := by omega
    have g6 : ¬ b1 % 16 = 6 := by omega
    have g7 : ¬ b1 % 16 = 7 := by omega
    have g14 : ¬ b1 % 16 = 14 := hne
    rw [if_neg g0, if_neg g1, if_neg g2, if_neg g3, if_neg g4, if_neg g5, if_neg g6,
        if_neg g7, if_neg g14]
  · intro rand s a b1 hh ha hb hb0 hb1 hne1 hne2
    have hop : read_opcode s = (0xE0 + a) * 256 + b1 := by
      unfold read_opcode
      rw [hb0, hb1]
      omega
    have hc : ((0xE0 + a) * 256 + b1) / 4096 = 14 := by omega
    have hxd : ((0xE0 + a) * 256 + b1) / 256 % 16 = a := by omega
    have hy : ((0xE0 + a) * 256 + b1) / 16 % 16 = b1 / 16 := by omega
    have hn : ((0xE0 + a) * 256 + b1) % 16 = b1 % 16 := by omega
    unfold exe
    rw [if_neg (show ¬ s.halt = true by simp [hh]), hop, hc, hxd, hy, hn]
    unfold exeDecoded
    norm_num
    unfold exeArmE
    have g1 : ¬ (b1 / 16 = 9 ∧ b1 % 16 = 14) := by omega
    have g2 : ¬ (b1 / 16 = 10 ∧ b1 % 16 = 1) := by omega
    rw [if_neg g1, if_neg g2]
  · intro rand s a b1 hh ha hb hb0 hb1 h1 h2 h3 h4 h5 h6 h7 h8 h9
    have hop : read_opcode s = (0xF0 + a) * 256 + b1 := by
      unfold read_opcode
      rw [hb0, hb1]
      omega
    have hc : ((0xF0 + a) * 256 + b1) / 4096 = 15 := by omega
    have hxd : ((0xF0 + a) * 256 + b1) / 256 % 16 = a := by omega
    have hy : ((0xF0 + a) * 256 + b1) / 16 % 16 = b1 / 16 := by omega
    have hn : ((0xF0 + a) * 256 + b1) % 16 = b1 % 16 := by omega
    unfold exe
    rw [if_neg (show ¬ s.halt = true by simp [hh]), hop, hc, hxd, hy, hn]
    unfold exeDecoded
    norm_num
    unfold exeArmF
    have g1 : ¬ (b1 / 16 = 0 ∧ b1 % 16 = 7) := by omega
    have g2 : ¬ (b1 / 16 = 0 ∧ b1 % 16 = 10) := by omega
    have g3 : ¬ (b1 / 16 = 1 ∧ b1 % 16 = 5) := by omega
    have g4 : ¬ (b1 / 16 = 1 ∧ b1 % 16 = 8) := by omega
    have g5 : ¬ (b1 / 16 = 1 ∧ b1 % 16 = 14) := by omega
    have g6 : ¬ (b1 / 16 = 2 ∧ b1 % 16 = 9) := by omega
    have g7 : ¬ (b1 / 16 = 3 ∧ b1 % 16 = 3) := by omega
    have g8 : ¬ (b1 / 16 = 5 ∧ b1 % 16 = 5) := by omega
    have g9 : ¬ (b1 / 16 = 6 ∧ b1 % 16 = 5) := by omega
    rw [if_neg g1, if_neg g2, if_neg g3, if_neg g4, if_neg g5, if_neg g6, if_neg g7,
        if_neg g8, if_neg g9]
  · intro rand s a b1 hh ha hb hb0 hb1
    have hop : read_opcode s = (0x50 + a) * 256 + b1 := by
      unfold read_opcode
      rw [hb0, hb1]
      omega
    have hc : ((0x50 + a) * 256 + b1) / 4096 = 5 := by omega
    have hxd : ((0x50 + a) * 256 + b1) / 256 % 16 = a := by omega
    have hy : ((0x50 + a) * 256 + b1) / 16 % 16 = b1 / 16 := by omega
    unfold exe
    rw [if_neg (show ¬ s.halt = true by simp [hh]), hop, hc, hxd, hy]
    unfold exeDecoded
    norm_num
  · intro rand s a b1 hh ha hb hb0 hb1
    have hop : read_opcode s = (0x90 + a) * 256 + b1 := by
      unfold read_opcode
      rw [hb0, hb1]
      omega
    have hc : ((0x90 + a) * 256 + b1) / 4096 = 9 := by omega
    have hxd : ((0x90 + a) * 256 + b1) / 256 % 16 = a := by omega
    have hy : ((0x90 + a) * 256 + b1) / 16 % 16 = b1 / 16 := by omega
    unfold exe
    rw [if_neg (show ¬ s.halt = true by simp [hh]), hop, hc, hxd, hy]
    unfold exeDecoded
    norm_num

def c6wState : Interpreter :=
  { initState with memory := fun a => if a = 0x200 then 0xF0 else if a = 0x201 then 0x4B else 0 }

/-- Witness for the C6 theorem: opcode F04B has no recognized FX suffix and
faults with the wrong-opcode panic. -/
theorem unknown_opcode_dispatch_witness :
    exe 0 c6wState = .error (.unknownOpcode ((0xF0 + 0) * 256 + 0x4B)) :=
  unknown_opcode_dispatch.2.2.2.1 0 c6wState 0 0x4B rfl (by decide) (by decide) rfl rfl
    (by decide) (by decide) (by decide) (by decide) (by decide)
    (by decide) (by decide) (by decide) (by decide)

def c6cexState : Interpreter :=
  { initState with memory := fun a => if a = 0x200 then 0x51 else if a = 0x201 then 0x23 else 0 }

/-- C6 counterexample: the word 5123 matches no canonical instruction form
(its low nibble is 3, not 0) yet it executes as the skip-if-equal
instruction instead of faulting: with V1 = V2 the program counter advances
by 4 and no error is raised. -/
theorem skip_5xyk_executes_cex :
    (exe 0 c6cexState).map Interpreter.program_counter = .ok 0x204 := rfl



theorem exe_draw_eq (rand : Nat) (s : Interpreter) (x y n : Nat)
    (hh : s.halt = false) (hx : x < 16) (hy : y < 16) (hn : n < 16)
    (hb0 : s.memory s.program_counter = 0xD0 + x)
    (hb1 : s.memory (s.program_counter + 1) = y * 16 + n)
    (hmem : s.index + n ≤ 4096) :
    exe rand s = .ok { s with program_counter := s.program_counter + 2, screen := (drawSprite s.memory s.index (setAt s.registers 0xF 0 x % WIDTH) (setAt s.registers 0xF 0 y % HEIGHT) n s.screen).1, registers := setAt (setAt s.registers 0xF 0) 0xF (drawSprite s.memory s.index (setAt s.registers 0xF 0 x % WIDTH) (setAt s.registers 0xF 0 y % HEIGHT) n s.screen).2 } := by
  have hop : read_opcode s = (0xD0 + x) * 256 + (y * 16 + n) := by
    unfold read_opcode
    rw [hb0, hb1]
    omega
  have hc : ((0xD0 + x) * 256 + (y * 16 + n)) / 4096 = 13 := by omega
  have hxd : ((0xD0 + x) * 256 + (y * 16 + n)) / 256 % 16 = x := by omega
  have hyd : ((0xD0 + x) * 256 + (y * 16 + n)) / 16 % 16 = y := by omega
  have hnd : ((0xD0 + x) * 256 + (y * 16 + n)) % 16 = n := by omega
  unfold exe
  rw [if_neg (show ¬ s.halt = true by simp [hh]), hop, hc, hxd, hyd, hnd]
  unfold exeDecoded
  norm_num
  rw [drawSpriteChecked_eq s.memory s.index _ _ n s.screen hmem]

/-- C4 (amended): the draw instruction DXYN takes its origin as
(VX mod 64, VY mod 32): the x coordinate register is reduced modulo the
screen width 64 and the y coordinate register modulo the screen height 32
before drawing begins, the coordinate registers being read after VF has
been cleared (so a draw whose X or Y nibble is F uses 0 for that
coordinate); every changed pixel lies in the n-by-8 block at that origin. -/
theorem draw_origin_modulo (rand : Nat) (s : Interpreter) (x y n : Nat)
    (hh : s.halt = false) (hx : x < 16) (hy : y < 16) (hn : n < 16)
    (hb0 : s.memory s.program_counter = 0xD0 + x)
    (hb1 : s.memory (s.program_counter + 1) = y * 16 + n)
    (hmem : s.index + n ≤ 4096) :
    exe rand s = .ok { s with program_counter := s.program_counter + 2, screen := (drawSprite s.memory s.index (setAt s.registers 0xF 0 x % WIDTH) (setAt s.registers 0xF 0 y % HEIGHT) n s.screen).1, registers := setAt (setAt s.registers 0xF 0) 0xF (drawSprite s.memory s.index (setAt s.registers 0xF 0 x % WIDTH) (setAt s.registers 0xF 0 y % HEIGHT) n s.screen).2 } ∧
    (∀ r c, (drawSprite s.memory s.index (setAt s.registers 0xF 0 x % WIDTH) (setAt s.registers 0xF 0 y % HEIGHT) n s.screen).1 r c ≠ s.screen r c →
      setAt s.registers 0xF 0 y % HEIGHT ≤ r ∧ r < setAt s.registers 0xF 0 y % HEIGHT + n ∧
      setAt s.registers 0xF 0 x % WIDTH ≤ c ∧ c < setAt s.registers 0xF 0 x % WIDTH + 8) ∧
    (x ≠ 0xF → setAt s.registers 0xF 0 x = s.registers x) ∧
    (y ≠ 0xF → setAt s.registers 0xF 0 y = s.registers y) ∧
    (x = 0xF → setAt s.registers 0xF 0 x = 0) ∧
    (y = 0xF → setAt s.registers 0xF 0 y = 0) := by
  refine ⟨exe_draw_eq rand s x y n hh hx hy hn hb0 hb1 hmem, ?_,
    fun hxf => setAt_other s.registers 0xF x 0 hxf,
    fun hyf => setAt_other s.registers 0xF y 0 hyf,
    fun hxf => hxf ▸ setAt_same s.registers 0xF 0,
    fun hyf => hyf ▸ setAt_same s.registers 0xF 0⟩
  intro r c hne
  rw [drawSprite_fst] at hne
  by_cases hP : setAt s.registers 0xF 0 y % HEIGHT ≤ r ∧
      r < min (setAt s.registers 0xF 0 y % HEIGHT + n) HEIGHT ∧
      setAt s.registers 0xF 0 x % WIDTH ≤ c ∧
      c < min (setAt s.registers 0xF 0 x % WIDTH + 8) WIDTH ∧
      setAt s.registers 0xF 0 x % WIDTH < WIDTH
  · simp only [WIDTH, HEIGHT] at hP ⊢
    omega
  · rw [if_neg hP] at hne
    exact absurd rfl hne

def c4wState : Interpreter :=
  { initState with
    memory := fun a => if a = 0 then 0x80 else if a = 0x200 then 0xD0 else if a = 0x201 then 0x11 else 0,
    registers := setAt (fun _ => 0) 1 40 }

/-- Witness for the C4 theorem at a concrete draw with VY = 40: the origin
row is 40 mod 32 = 8. -/
theorem draw_origin_modulo_witness :
    (exe 0 c4wState = .ok { c4wState with program_counter := c4wState.program_counter + 2, screen := (drawSprite c4wState.memory c4wState.index (setAt c4wState.registers 0xF 0 0 % WIDTH) (setAt c4wState.registers 0xF 0 1 % HEIGHT) 1 c4wState.screen).1, registers := setAt (setAt c4wState.registers 0xF 0) 0xF (drawSprite c4wState.memory c4wState.index (setAt c4wState.registers 0xF 0 0 % WIDTH) (setAt c4wState.registers 0xF 0 1 % HEIGHT) 1 c4wState.screen).2 } ∧
    (∀ r c, (drawSprite c4wState.memory c4wState.index (setAt c4wState.registers 0xF 0 0 % WIDTH) (setAt c4wState.registers 0xF 0 1 % HEIGHT) 1 c4wState.screen).1 r c ≠ c4wState.screen r c →
      setAt c4wState.registers 0xF 0 1 % HEIGHT ≤ r ∧ r < setAt c4wState.registers 0xF 0 1 % HEIGHT + 1 ∧
      setAt c4wState.registers 0xF 0 0 % WIDTH ≤ c ∧ c < setAt c4wState.registers 0xF 0 0 % WIDTH + 8) ∧
    ((0 : Nat) ≠ 0xF → setAt c4wState.registers 0xF 0 0 = c4wState.registers 0) ∧
    ((1 : Nat) ≠ 0xF → setAt c4wState.registers 0xF 0 1 = c4wState.registers 1) ∧
    ((0 : Nat) = 0xF → setAt c4wState.registers 0xF 0 0 = 0) ∧
    ((1 : Nat) = 0xF → setAt c4wState.registers 0xF 0 1 = 0)) ∧
    setAt c4wState.registers 0xF 0 1 % HEIGHT = 8 :=
  ⟨draw_origin_modulo 0 c4wState 0 1 1 rfl (by decide) (by decide) (by decide) rfl rfl (by decide),
    by decide⟩

/-- C4 counterexample: with VY = 40 the sprite is drawn at row 8 (40 mod
32), not at row 40 (40 mod 64) as the claim states: after the draw, pixel
(8, 0) is set and pixel (40, 0) is not. -/
theorem draw_origin_y_mod32_cex :
    (exe 0 c4wState).map (fun t => (t.screen 8 0, t.screen 40 0)) = .ok (true, false) := rfl

/-- C10: a draw instruction whose sprite rows lie inside memory (the row
reads memory[I + i] stay below 4096) returns normally instead of hitting
the indexing panic, and all its writes land inside the 64 x 32 screen
grid: every pixel with row at least 32 or column at least 64 is untouched,
the row count being clipped at the bottom edge and the columns at the
right edge. -/
theorem draw_in_bounds (rand : Nat) (s : Interpreter) (x y n : Nat)
    (hh : s.halt = false) (hx : x < 16) (hy : y < 16) (hn : n < 16)
    (hb0 : s.memory s.program_counter = 0xD0 + x)
    (hb1 : s.memory (s.program_counter + 1) = y * 16 + n)
    (hmem : s.index + n ≤ 4096) :
    exe rand s = .ok { s with program_counter := s.program_counter + 2, screen := (drawSprite s.memory s.index (setAt s.registers 0xF 0 x % WIDTH) (setAt s.registers 0xF 0 y % HEIGHT) n s.screen).1, registers := setAt (setAt s.registers 0xF 0) 0xF (drawSprite s.memory s.index (setAt s.registers 0xF 0 x % WIDTH) (setAt s.registers 0xF 0 y % HEIGHT) n s.screen).2 } ∧
    (∀ r c, HEIGHT ≤ r ∨ WIDTH ≤ c →
      (drawSprite s.memory s.index (setAt s.registers 0xF 0 x % WIDTH) (setAt s.registers 0xF 0 y % HEIGHT) n s.screen).1 r c = s.screen r c) := by
  refine ⟨exe_draw_eq rand s x y n hh hx hy hn hb0 hb1 hmem, ?_⟩
  intro r c hout
  rw [drawSprite_fst, if_neg]
  intro hP
  simp only [WIDTH, HEIGHT] at hP hout
  omega

/-- Witness for the C10 theorem at the concrete draw of the C4 state. -/
theorem draw_in_bounds_witness :
    exe 0 c4wState = .ok { c4wState with program_counter := c4wState.program_counter + 2, screen := (drawSprite c4wState.memory c4wState.index (setAt c4wState.registers 0xF 0 0 % WIDTH) (setAt c4wState.registers 0xF 0 1 % HEIGHT) 1 c4wState.screen).1, registers := setAt (setAt c4wState.registers 0xF 0) 0xF (drawSprite c4wState.memory c4wState.index (setAt c4wState.registers 0xF 0 0 % WIDTH) (setAt c4wState.registers 0xF 0 1 % HEIGHT) 1 c4wState.screen).2 } ∧
    (∀ r c, HEIGHT ≤ r ∨ WIDTH ≤ c →
      (drawSprite c4wState.memory c4wState.index (setAt c4wState.registers 0xF 0 0 % WIDTH) (setAt c4wState.registers 0xF 0 1 % HEIGHT) 1 c4wState.screen).1 r c = c4wState.screen r c) :=
  draw_in_bounds 0 c4wState 0 1 1 rfl (by decide) (by decide) (by decide) rfl rfl (by decide)


/-- C5 (amended): VF is cleared before drawing and ends at 1 exactly when
some set destination pixel receives an incoming set bit; each destination
pixel is XORed with its sprite bit, never unconditionally set.  For a
non-empty in-bounds sprite drawn onto a footprint whose pixels all start
unset, the first draw sets pixels with VF = 0, a second identical draw
restores every pixel and sets VF = 1, and a third sets the pixels again
with VF = 0. -/
theorem draw_xor_collision :
    (∀ (mem : Nat → Nat) (index x0 y0 n : Nat) (screen : Screen) (r c : Nat),
      (drawSprite mem index x0 y0 n screen).1 r c =
        if y0 ≤ r ∧ r < min (y0 + n) HEIGHT ∧ x0 ≤ c ∧ c < min (x0 + 8) WIDTH ∧ x0 < WIDTH
        then xor (screen r c) (bitOf (mem (index + (r - y0))) (c - x0)) else screen r c) ∧
    (∀ (mem : Nat → Nat) (index x0 y0 n : Nat) (screen : Screen),
      ((drawSprite mem index x0 y0 n screen).2 = 1 ↔
        ∃ a, a < min (y0 + n) HEIGHT - y0 ∧ ∃ k, k < min (x0 + 8) WIDTH - x0 ∧
          (screen (y0 + a) (x0 + k) && bitOf (mem (index + a)) k) = true) ∧
      ((drawSprite mem index x0 y0 n screen).2 = 0 ∨
        (drawSprite mem index x0 y0 n screen).2 = 1)) ∧
    (∀ (mem : Nat → Nat) (index x0 y0 n : Nat) (screen : Screen),
      x0 + 8 ≤ WIDTH → y0 + n ≤ HEIGHT →
      (∃ a, a < n ∧ ∃ k, k < 8 ∧ bitOf (mem (index + a)) k = true) →
      (∀ a, a < n → ∀ k, k < 8 → screen (y0 + a) (x0 + k) = false) →
      (drawSprite mem index x0 y0 n screen).2 = 0 ∧
      (∀ r c, (drawSprite mem index x0 y0 n ((drawSprite mem index x0 y0 n screen).1)).1 r c = screen r c) ∧
      (drawSprite mem index x0 y0 n ((drawSprite mem index x0 y0 n screen).1)).2 = 1 ∧
      (∀ r c, (drawSprite mem index x0 y0 n ((drawSprite mem index x0 y0 n ((drawSprite mem index x0 y0 n screen).1)).1)).1 r c = (drawSprite mem index x0 y0 n screen).1 r c) ∧
      (drawSprite mem index x0 y0 n ((drawSprite mem index x0 y0 n ((drawSprite mem index x0 y0 n screen).1)).1)).2 = 0) := by
  refine ⟨fun mem index x0 y0 n screen r c => drawSprite_fst mem index x0 y0 n screen r c, ?_, ?_⟩
  · intro mem index x0 y0 n screen
    rw [drawSprite_snd]
    constructor
    · split
      · rename_i hC
        exact ⟨fun _ => hC, fun _ => rfl⟩
      · rename_i hC
        exact ⟨fun h01 => absurd h01 (by omega), fun hc => absurd hc hC⟩
    · split
      · right
        rfl
      · left
        rfl
  · intro mem index x0 y0 n screen hx hy hne hblank
    have hclip : min (y0 + n) HEIGHT - y0 = n := by
      simp only [HEIGHT] at hy ⊢
      omega
    have hw : min (x0 + 8) WIDTH - x0 = 8 := by
      simp only [WIDTH] at hx ⊢
      omega
    have hv1 : (drawSprite mem index x0 y0 n screen).2 = 0 := by
      rw [drawSprite_snd, hclip, hw, if_neg]
      rintro ⟨a, ha, k, hk, hcol⟩
      rw [hblank a ha k hk] at hcol
      simp at hcol
    have hpix : ∀ a, a < n → ∀ k, k < 8 →
        (drawSprite mem index x0 y0 n screen).1 (y0 + a) (x0 + k) = bitOf (mem (index + a)) k := by
      intro a ha k hk
      rw [drawSprite_fst, if_pos (by simp only [WIDTH, HEIGHT] at hx hy ⊢; omega), hblank a ha k hk]
      rw [show y0 + a - y0 = a by omega, show x0 + k - x0 = k by omega]
      simp
    have hrest : ∀ r c,
        (drawSprite mem index x0 y0 n ((drawSprite mem index x0 y0 n screen).1)).1 r c = screen r c := by
      intro r c
      rw [drawSprite_fst, drawSprite_fst]
      by_cases hP : y0 ≤ r ∧ r < min (y0 + n) HEIGHT ∧ x0 ≤ c ∧ c < min (x0 + 8) WIDTH ∧ x0 < WIDTH
      · rw [if_pos hP, if_pos hP, Bool.xor_assoc, Bool.xor_self, Bool.xor_false]
      · rw [if_neg hP, if_neg hP]
    have hv2 : (drawSprite mem index x0 y0 n ((drawSprite mem index x0 y0 n screen).1)).2 = 1 := by
      obtain ⟨a, ha, k, hk, hbit⟩ := hne
      have hcol : ((drawSprite mem index x0 y0 n screen).1 (y0 + a) (x0 + k)
          && bitOf (mem (index + a)) k) = true := by
        rw [hpix a ha k hk, hbit]
        rfl
      rw [drawSprite_snd, hclip, hw, if_pos ⟨a, ha, k, hk, hcol⟩]
    refine ⟨hv1, hrest, hv2, ?_, ?_⟩
    · intro r c
      rw [drawSprite_fst, hrest r c, drawSprite_fst]
    · rw [drawSprite_snd, hclip, hw, if_neg]
      rintro ⟨a, ha, k, hk, hcol⟩
      rw [hrest (y0 + a) (x0 + k), hblank a ha k hk] at hcol
      simp at hcol

def c5wMem : Nat → Nat := fun a => if a = 0 then 0x80 else 0

def c5wScreen : Screen := fun _ _ => false

/-- Witness for the C5 theorem: the one-row sprite 80 drawn at the origin
of a blank screen, three times over. -/
theorem draw_xor_collision_witness :
    (drawSprite c5wMem 0 0 0 1 c5wScreen).2 = 0 ∧
    (∀ r c, (drawSprite c5wMem 0 0 0 1 ((drawSprite c5wMem 0 0 0 1 c5wScreen).1)).1 r c = c5wScreen r c) ∧
    (drawSprite c5wMem 0 0 0 1 ((drawSprite c5wMem 0 0 0 1 c5wScreen).1)).2 = 1 ∧
    (∀ r c, (drawSprite c5wMem 0 0 0 1 ((drawSprite c5wMem 0 0 0 1 ((drawSprite c5wMem 0 0 0 1 c5wScreen).1)).1)).1 r c = (drawSprite c5wMem 0 0 0 1 c5wScreen).1 r c) ∧
    (drawSprite c5wMem 0 0 0 1 ((drawSprite c5wMem 0 0 0 1 ((drawSprite c5wMem 0 0 0 1 c5wScreen).1)).1)).2 = 0 :=
  draw_xor_collision.2.2 c5wMem 0 0 0 1 c5wScreen (by decide) (by decide)
    ⟨0, by decide, 0, by decide, by decide⟩ (fun a ha k hk => rfl)

def c5cexScreen : Screen := fun r c => r == 0 && c == 0

/-- C5 counterexample: drawing the non-empty in-bounds one-row sprite 80
twice at the origin of a screen whose pixel (0,0) is already set yields
VF = 1 on the first draw and VF = 0 on the second, contradicting the
claim that the second of two identical draws always ends with VF = 1. -/
theorem draw_twice_vf_cex :
    bitOf (c5wMem 0) 0 = true ∧
    (drawSprite c5wMem 0 0 0 1 c5cexScreen).2 = 1 ∧
    (drawSprite c5wMem 0 0 0 1 ((drawSprite c5wMem 0 0 0 1 c5cexScreen).1)).2 = 0 := by decide


end Chip8
